import Mathlib

/-!
Shallow embedding of the FFMPEG_POC video server (single-module Express/TUS/ffmpeg
application).  The embedding models, from the source:

* the `upload-finish` TUS event handler (push path): probe, master-playlist
  generation, sequential per-quality encoding, websocket notifications,
  source-file cleanup, and its catch block;
* the periodic reconciliation scanner `checkForCompletedUploads`: pruning of
  `.processed` claim-marker files (orphan and 30-minute-stale recovery) and the
  claim-then-encode phase over completed uploads;
* the `/api/local-videos/process` endpoint and its `processedLocalVideos` cache,
  with an explicit interleaving model for two concurrent requests;
* the `/api/videos/:videoId` status endpoint.

Modelling conventions: machine work (ffmpeg subprocesses) is a black-box outcome
parameter, filesystem state is explicit association lists, and the JavaScript
runtime error raised by the undefined identifier `WebSocket` is modelled through
an explicit module-scope lookup that fails.
-/

deriving instance DecidableEq for Except

/-- A live websocket connection as the server stores it: both the raw sockets in
`wss.clients` and the entries of the `clients` map carry a ready-state. -/
structure Conn where
  id : String
  readyState : Nat
deriving Repr, DecidableEq

/-- The typed websocket messages the server serialises and sends. -/
inductive Msg where
  | videoProcessed (videoId hlsUrl : String)
  | videoError (videoId error : String)
  | processingStarted (videoId : String)
  | localVideoProcessed (videoId : String)
deriving Repr, DecidableEq

/-- Runtime errors that can abort a handler. -/
inductive RtError where
  | referenceError (ident : String)
  | encodeError (msg : String)
  | probeError (msg : String)
deriving Repr, DecidableEq

def RtError.message : RtError → String
  | .referenceError i => i ++ " is not defined"
  | .encodeError m => m
  | .probeError m => m

/-- One entry of the master playlist: a `#EXT-X-STREAM-INF` line with its
bandwidth and resolution attributes plus the child-playlist uri. -/
structure StreamInf where
  bandwidth : Nat
  width : ℤ
  height : Nat
  uri : String
deriving Repr, DecidableEq

/-- Observable events of a handler run, in execution order. -/
inductive Ev where
  | probe
  | writeMaster (videoId : String) (entries : List StreamInf)
  | encodeRun (videoId variant : String)
  | encodeEnd (videoId variant : String)
  | sendWs (clientId : String) (msg : Msg)
  | unlinkSource
  | writeFlag (file : String)
  | unlinkFlag (file : String)
  | procStart (file videoId : String)
  | procEnd (file videoId : String)
deriving Repr, DecidableEq

def Ev.isWriteFlag : Ev → Bool
  | .writeFlag _ => true
  | _ => false

def Ev.isEncodeRun : Ev → Bool
  | .encodeRun _ _ => true
  | _ => false

def Ev.isSendWs : Ev → Bool
  | .sendWs _ _ => true
  | _ => false

/-- The module imports `WebSocketServer` from `ws` but never imports or declares
`WebSocket`; at module scope the bare identifier is unbound, so evaluating
`WebSocket.OPEN` raises a `ReferenceError`.  (Modelled as a failing lookup; the
bound branch is kept so the broadcast code below mirrors the source even though
it is unreachable.) -/
def moduleWebSocket : Option Nat := none

/-- `forEach` broadcast over a connection collection, as written at every
broadcast site of the server: for each connection the guard
`... readyState === WebSocket.OPEN` is evaluated, which dereferences the unbound
`WebSocket` identifier.  With an empty collection the callback never runs and
nothing is sent; with a non-empty one the first guard evaluation throws. -/
def jsBroadcast (conns : List Conn) (m : Msg) : Except RtError (List Ev) :=
  match conns with
  | [] => .ok []
  | c :: rest =>
    match moduleWebSocket with
    | none => .error (.referenceError "WebSocket")
    | some opn =>
      match jsBroadcast rest m with
      | .error e => .error e
      | .ok evs =>
        if c.readyState = opn then .ok (.sendWs c.id m :: evs) else .ok evs

/-- One rung of the fixed quality ladder, exactly the `qualities` array of the
`upload-finish` handler. -/
structure Quality where
  name : String
  height : Nat
  bitrate : String
  preset : String
deriving Repr, DecidableEq

def qualities : List Quality :=
  [⟨"360p", 360, "800k", "ultrafast"⟩,
   ⟨"480p", 480, "1500k", "ultrafast"⟩,
   ⟨"720p", 720, "2500k", "ultrafast"⟩]

/-- JavaScript `parseInt` on a decimal string: the longest digit prefix, `none`
when there is no digit (`NaN`).  `parseInt('800k') = 800`. -/
def parseIntPrefix (s : String) : Option Nat :=
  let ds := s.toList.takeWhile Char.isDigit
  if ds.isEmpty then none
  else some (ds.foldl (fun a c => a * 10 + (c.toNat - 48)) 0)

/-- Probe result: the `width`/`height` fields of `metadata.streams[0]`. -/
structure Dim where
  width : Nat
  height : Nat
deriving Repr, DecidableEq

/-- The master-playlist entries the handler generates before any encoding:
`aspectRatio = width / height` is computed once, then for each quality
`targetHeight = Math.min(quality.height, height)`,
`targetWidth = Math.round(targetHeight * aspectRatio)`, and the bandwidth
attribute is `parseInt(quality.bitrate)` with `000` appended.
(`Math.round x = ⌊x + 1/2⌋`, which is `round` on `ℚ`.) -/
def masterEntries (srcW srcH : Nat) : List StreamInf :=
  let aspectRatio : ℚ := (srcW : ℚ) / (srcH : ℚ)
  qualities.map fun q =>
    let targetHeight := min q.height srcH
    let targetWidth := round ((targetHeight : ℚ) * aspectRatio)
    { bandwidth := (parseIntPrefix q.bitrate).getD 0 * 1000
      width := targetWidth
      height := targetHeight
      uri := q.name ++ ".m3u8" }

/-- The same entry as the specification words it, for refinement comparison:
"bandwidth (from configured bitrate) and resolution computed as
targetHeight = min(configuredHeight, sourceHeight),
targetWidth = round(targetHeight * aspectRatio)" with
aspectRatio = sourceWidth / sourceHeight. -/
def specLadderEntry (srcW srcH : Nat) (q : Quality) : StreamInf :=
  let targetHeight := min q.height srcH
  let aspectRatio : ℚ := (srcW : ℚ) / (srcH : ℚ)
  { bandwidth := (parseIntPrefix q.bitrate).getD 0 * 1000
    width := round ((targetHeight : ℚ) * aspectRatio)
    height := targetHeight
    uri := q.name ++ ".m3u8" }

/-- The sequential variant loop of the `upload-finish` handler.  Each iteration
starts the ffmpeg job (`.run()`; the `encodeRun` event), then — only before the
first `await` — broadcasts the early `videoProcessed` notification over
`wss.clients`, then awaits the job.  `enc i` is the black-box outcome of the
i-th variant's subprocess.  Returns the emitted events and the error that
escaped the loop, if any. -/
def pushVariants (enc : Nat → Except String Unit) (conns : List Conn)
    (videoId : String) : List Quality → Nat → Bool → List Ev × Option RtError
  | [], _, _ => ([], none)
  | q :: rest, i, notified =>
    let run := Ev.encodeRun videoId q.name
    if notified then
      match enc i with
      | .ok _ =>
        let (t, e) := pushVariants enc conns videoId rest (i + 1) true
        (run :: Ev.encodeEnd videoId q.name :: t, e)
      | .error m => ([run], some (.encodeError m))
    else
      match jsBroadcast conns
          (.videoProcessed videoId ("/hls/" ++ videoId ++ "/playlist.m3u8")) with
      | .error e => ([run], some e)
      | .ok sends =>
        match enc i with
        | .ok _ =>
          let (t, e) := pushVariants enc conns videoId rest (i + 1) true
          (run :: (sends ++ Ev.encodeEnd videoId q.name :: t), e)
        | .error m => (run :: sends, some (.encodeError m))

/-- The catch block of the `upload-finish` handler: it broadcasts a typed
`videoError` message over `wss.clients`.  If that broadcast itself throws (the
`WebSocket` reference), the handler's promise rejects with the new error;
otherwise the original error is swallowed (only logged). -/
def pushCatch (t : List Ev) (conns : List Conn) (videoId : String)
    (e : RtError) : List Ev × Except RtError Unit :=
  match jsBroadcast conns (.videoError videoId e.message) with
  | .error re => (t, .error re)
  | .ok sends => (t ++ sends, .ok ())

/-- The `upload-finish` TUS event handler (push path).  Inputs: whether the
event carried file data, the probe outcome, the per-variant encode outcomes,
the current `wss.clients` set and the freshly generated uuid.  Output: the
event trace and the handler's final disposition (`.error` = the async handler
rejected).  Note that the handler never reads or writes any `.processed` claim
marker, and deletes the source only after all variants succeed. -/
def uploadFinish (filePresent : Bool) (probeRes : Except String Dim)
    (enc : Nat → Except String Unit) (conns : List Conn) (videoId : String) :
    List Ev × Except RtError Unit :=
  if filePresent = false then ([], .ok ())
  else
    match probeRes with
    | .error m => pushCatch [Ev.probe] conns videoId (.probeError m)
    | .ok d =>
      let pre := [Ev.probe, Ev.writeMaster videoId (masterEntries d.width d.height)]
      match pushVariants enc conns videoId qualities 0 false with
      | (t, none) => (pre ++ t ++ [Ev.unlinkSource], .ok ())
      | (t, some e) => pushCatch (pre ++ t) conns videoId e

/-! ## The reconciliation scanner `checkForCompletedUploads` -/

/-- The staleness TTL: `30 * 60 * 1000` milliseconds. -/
def ttlMs : Int := 30 * 60 * 1000

/-- The tus-uploads directory as the scanner sees it.
`uploads`: data files, name to actual on-disk size (`stats.size`);
`metas`: the `name.json` side files, name to the declared `info.size`;
`flags`: the `name.processed` claim markers, name to the timestamp parsed from
the file's content (`none` when `new Date(content)` is an Invalid Date);
`hls`: video ids whose `playlist.m3u8` exists under the hls directory.
Data-file names are assumed not to end in `.json` or `.processed` (the TUS
`FileStore` names them by upload id), so the scanner's suffix filters are
modelled by the three separate lists. -/
structure Store where
  uploads : List (String × Nat)
  metas : List (String × Nat)
  flags : List (String × Option Int)
  hls : List String
deriving Repr, DecidableEq

def Store.eraseFlag (s : Store) (f : String) : Store :=
  { s with flags := s.flags.filter (fun p => !(p.1 == f)) }

def Store.setFlag (s : Store) (f : String) (ts : Option Int) : Store :=
  { s with flags := (f, ts) :: s.flags.filter (fun p => !(p.1 == f)) }

def Store.addHls (s : Store) (vid : String) : Store :=
  { s with hls := vid :: s.hls }

/-- A directory entry of the tus-uploads directory, tagged by kind.  `name` is
the full filename `readdir` returns; `isJson` and `isFlag` are the
`endsWith('.json')` / `endsWith('.processed')` tests of the scanner. -/
inductive FName where
  | data (base : String)
  | json (base : String)
  | flag (base : String)
deriving Repr, DecidableEq

def FName.name : FName → String
  | .data b => b
  | .json b => b ++ ".json"
  | .flag b => b ++ ".processed"

def FName.isJson : FName → Bool
  | .json _ => true
  | _ => false

def FName.isFlag : FName → Bool
  | .flag _ => true
  | _ => false

/-- `fs.readdir(tusUploadDir)`. -/
def readdirNames (s : Store) : List FName :=
  s.uploads.map (fun p => FName.data p.1)
    ++ s.metas.map (fun p => FName.json p.1)
    ++ s.flags.map (fun p => FName.flag p.1)

/-- Threaded scanner state: the directory, the per-run `processedVideoIds`
set, and the event trace so far. -/
structure ScanSt where
  store : Store
  procd : List String
  trace : List Ev
deriving Repr, DecidableEq

/-- One step of the marker-pruning loop, for the flag `e.1 ++ ".processed"`
with parsed timestamp `e.2`.  If the original data file is gone the orphaned
flag is unlinked; otherwise, a parseable timestamp older than the TTL is
unlinked for retry, and any other flag (fresh, or unparseable — `NaN > ttl`
is false in JavaScript, so the invalid-flag removal branch of the source is
unreachable) records the original file in `processedVideoIds`.
Returns (new store, new processed set, emitted events). -/
def pruneEntry (now : Int) (store : Store) (procd : List String)
    (e : String × Option Int) : Store × List String × List Ev :=
  if (store.uploads.lookup e.1).isSome then
    match e.2 with
    | some ts =>
      if now - ts > ttlMs then
        (store.eraseFlag e.1, procd, [.unlinkFlag e.1])
      else (store, procd.insert e.1, [])
    | none => (store, procd.insert e.1, [])
  else (store.eraseFlag e.1, procd, [.unlinkFlag e.1])

/-- The pruning loop over the flag files materialised at the start of the run. -/
def prunePhase (now : Int) : ScanSt → List (String × Option Int) → ScanSt
  | st, [] => st
  | st, e :: rest =>
    prunePhase now
      ⟨(pruneEntry now st.store st.procd e).1,
       (pruneEntry now st.store st.procd e).2.1,
       st.trace ++ (pruneEntry now st.store st.procd e).2.2⟩ rest

/-- The single-quality fallback encoder `processVideo(inputPath, videoId)`:
one ffmpeg job whose `end` event resolves and whose `error` event rejects.
On success its `playlist.m3u8` output exists. -/
def processVideo (enc : String → Except String Unit) (f vid : String) :
    List Ev × Except String Unit :=
  match enc f with
  | .ok _ => ([.procStart f vid, .procEnd f vid], .ok ())
  | .error m => ([.procStart f vid], .error m)

/-- The per-candidate body of the scanner loop (everything inside
`for (const file of uploadFiles)`): stat the file, read its metadata json,
and when the actual size equals the declared size attempt the claim — skip if
the `.processed` marker exists, else write the marker and run the orchestrated
encode inside a try/catch that releases the marker on failure.  The broadcasts
go through the `clients` map and throw when it is non-empty (undefined
`WebSocket`); the inner catch then unlinks the freshly written marker and its
own `videoError` broadcast throws again, which the per-file catch swallows.
Returns (new store, new processed set, event block). -/
def scanFile (now : Int) (clients : List Conn) (enc : String → Except String Unit)
    (gen : String → String) (store : Store) (procd : List String) (f : String) :
    Store × List String × List Ev :=
  match store.uploads.lookup f with
  | none => (store, procd, [])
  | some sz =>
    match store.metas.lookup f with
    | none => (store, procd, [])
    | some declared =>
      if sz = declared then
        match store.flags.lookup f with
        | some _ => (store, procd.insert f, [])
        | none =>
          let vid := gen f
          let store1 := store.setFlag f (some now)
          match jsBroadcast clients (.processingStarted vid) with
          | .error _ =>
            (store1.eraseFlag f, procd, [.writeFlag f, .unlinkFlag f])
          | .ok s1 =>
            let (pv, res) := processVideo enc f vid
            match res with
            | .ok _ =>
              let store2 := store1.addHls vid
              match jsBroadcast clients
                  (.videoProcessed vid ("/hls/" ++ vid ++ "/playlist.m3u8")) with
              | .error _ =>
                (store2.eraseFlag f, procd,
                  Ev.writeFlag f :: (s1 ++ pv ++ [.unlinkFlag f]))
              | .ok s2 =>
                (store2, procd.insert f, Ev.writeFlag f :: (s1 ++ pv ++ s2))
            | .error m =>
              let store2 := store1.eraseFlag f
              match jsBroadcast clients (.videoError vid m) with
              | .error _ =>
                (store2, procd, Ev.writeFlag f :: (s1 ++ pv ++ [.unlinkFlag f]))
              | .ok s3 =>
                (store2, procd, Ev.writeFlag f :: (s1 ++ pv ++ [.unlinkFlag f] ++ s3))
      else (store, procd, [])

/-- The candidate loop over the filenames materialised by the second
`readdir`. -/
def scanPhase (now : Int) (clients : List Conn) (enc : String → Except String Unit)
    (gen : String → String) : ScanSt → List String → ScanSt
  | st, [] => st
  | st, f :: rest =>
    scanPhase now clients enc gen
      ⟨(scanFile now clients enc gen st.store st.procd f).1,
       (scanFile now clients enc gen st.store st.procd f).2.1,
       st.trace ++ (scanFile now clients enc gen st.store st.procd f).2.2⟩ rest

/-- One run of the periodic scanner `checkForCompletedUploads`: prune the claim
markers listed at the start of the run, then re-list the directory, filter out
`.json` files, `.processed` files and files already in `processedVideoIds`,
and run the candidate loop.  `enc` gives each file's encode outcome and `gen`
the uuid assigned to it. -/
def checkForCompletedUploads (store : Store) (now : Int) (clients : List Conn)
    (enc : String → Except String Unit) (gen : String → String) : ScanSt :=
  let st1 := prunePhase now ⟨store, [], []⟩ store.flags
  let uploadFiles :=
    ((readdirNames st1.store).filter fun n =>
      !n.isJson && !n.isFlag && !(st1.procd.contains n.name)).map FName.name
  scanPhase now clients enc gen st1 uploadFiles

/-- The always-succeeding encode outcome. -/
def encOk : String → Except String Unit := fun _ => .ok ()

/-! ## The query API and the local-video processing endpoint -/

/-- A processed-local-video record, as stored in `processedLocalVideos` and
returned by the endpoint. -/
structure VideoInfo where
  id : String
  filename : String
  hlsUrl : String
deriving Repr, DecidableEq

/-- A structured response body. -/
inductive Body where
  | statusBody (videoId status : String) (hlsUrl : Option String)
  | errBody (error : String)
  | infoBody (info : VideoInfo)
deriving Repr, DecidableEq

/-- An HTTP response: status code plus JSON body. -/
structure Resp where
  status : Nat
  body : Body
deriving Repr, DecidableEq

/-- `GET /api/videos/:videoId`: if `hls/<id>/playlist.m3u8` exists the video is
reported `processed` with its url, otherwise the endpoint answers 200 with
status `processing` and a null url — it never answers 404. -/
def getVideoStatus (hls : List String) (videoId : String) : Resp :=
  if hls.contains videoId then
    ⟨200, .statusBody videoId "processed" (some ("/hls/" ++ videoId ++ "/playlist.m3u8"))⟩
  else ⟨200, .statusBody videoId "processing" none⟩

/-- Outcome of the synchronous prefix of `POST /api/local-videos/process`
(everything before the `await processLocalVideo` suspension): either an
immediate response or the start of a transcode for the fresh uuid. -/
inductive AOut where
  | respond (r : Resp)
  | startProc (vid : String)
deriving Repr, DecidableEq

/-- The synchronous prefix of the process endpoint: 400 when the body has no
filename, 404 when the file is not in the uploads directory, the cached record
when `processedLocalVideos` already has the filename, else start processing. -/
def localPhaseA (files : List String) (cache : List (String × VideoInfo))
    (body : Option String) (vid : String) : AOut :=
  match body with
  | none => .respond ⟨400, .errBody "Filename is required"⟩
  | some f =>
    if files.contains f then
      match cache.lookup f with
      | some info => .respond ⟨200, .infoBody info⟩
      | none => .startProc vid
    else .respond ⟨404, .errBody "File not found"⟩

/-- The continuation of the process endpoint after `processLocalVideo`
resolves: record the video in `processedLocalVideos`, then broadcast
`localVideoProcessed` over the `clients` map — which throws when the map is
non-empty (undefined `WebSocket`), turning the response into a 500 — else
answer 200 with the video info. -/
def localPhaseB (clients : List Conn) (cache : List (String × VideoInfo))
    (f vid : String) : List (String × VideoInfo) × Resp :=
  let info : VideoInfo := ⟨vid, f, "/hls/" ++ vid ++ "/playlist.m3u8"⟩
  let cache1 := (f, info) :: cache.filter (fun p => !(p.1 == f))
  match jsBroadcast clients (.localVideoProcessed vid) with
  | .error e => (cache1, ⟨500, .errBody e.message⟩)
  | .ok _ => (cache1, ⟨200, .infoBody info⟩)

/-- The progress of one in-flight request to the process endpoint. -/
inductive ReqState where
  | pending
  | transcoding (vid : String)
  | finished (r : Resp)
deriving Repr, DecidableEq

/-- Shared server state while two requests for the same filename `f` are in
flight: the `processedLocalVideos` cache, each request's progress, and the
filenames ffmpeg has been invoked on (one entry per invocation — duplicate
entries are duplicate transcodes). -/
structure LocalSt where
  cache : List (String × VideoInfo)
  r1 : ReqState
  r2 : ReqState
  transcodes : List String
deriving Repr, DecidableEq

/-- Advance one request by one atomic section (the event-loop slices between
`await` points). -/
def advanceReq (files : List String) (clients : List Conn) (f vid : String)
    (cache : List (String × VideoInfo)) (transcodes : List String) :
    ReqState → ReqState × List (String × VideoInfo) × List String
  | .pending =>
    match localPhaseA files cache (some f) vid with
    | .respond r => (.finished r, cache, transcodes)
    | .startProc v => (.transcoding v, cache, transcodes ++ [f])
  | .transcoding v =>
    let (c1, r) := localPhaseB clients cache f v
    (.finished r, c1, transcodes)
  | .finished r => (.finished r, cache, transcodes)

/-- One scheduler step: run the next atomic section of request 1 (`true`) or
request 2 (`false`).  Node's event loop interleaves the two handlers only at
these boundaries. -/
def stepLocal (files : List String) (clients : List Conn) (f v1 v2 : String)
    (st : LocalSt) (which : Bool) : LocalSt :=
  if which then
    let (r, c, t) := advanceReq files clients f v1 st.cache st.transcodes st.r1
    { st with r1 := r, cache := c, transcodes := t }
  else
    let (r, c, t) := advanceReq files clients f v2 st.cache st.transcodes st.r2
    { st with r2 := r, cache := c, transcodes := t }

/-- Two concurrent requests for filename `f` (fresh uuids `v1`, `v2`) executed
under an explicit interleaving schedule, starting from cache `cache`. -/
def runTwoRequests (files : List String) (clients : List Conn) (f v1 v2 : String)
    (cache : List (String × VideoInfo)) (sched : List Bool) : LocalSt :=
  sched.foldl (stepLocal files clients f v1 v2) ⟨cache, .pending, .pending, []⟩

/-- In trace `t`, some occurrence of `procStart f vid` comes after a write of
the claim marker for `f`. -/
def ClaimBefore (f vid : String) (t : List Ev) : Prop :=
  Ev.procStart f vid ∈ t →
    ∃ pre post, t = pre ++ Ev.writeFlag f :: post ∧ Ev.procStart f vid ∈ post

/-! ## Helper lemmas about association-list stores and broadcasts -/

theorem lookup_cons_ne {β : Type} {s g : String} (v : β) (l : List (String × β))
    (h : s ≠ g) : List.lookup s ((g, v) :: l) = List.lookup s l := by
  have hb : (s == g) = false := beq_eq_false_iff_ne.mpr h
  simp [List.lookup, hb]

theorem lookup_filter_ne {β : Type} (l : List (String × β)) {s g : String}
    (h : s ≠ g) :
    (l.filter fun p => !(p.1 == g)).lookup s = l.lookup s := by
  induction l with
  | nil => rfl
  | cons p rest ih =>
    rcases p with ⟨k, v⟩
    rw [List.filter_cons]
    by_cases hk : k = g
    · have h1 : (!((k, v).1 == g)) = false := by simp [hk]
      rw [h1]
      simp only [Bool.false_eq_true, if_false]
      rw [ih, lookup_cons_ne v rest (hk ▸ h)]
    · have h1 : (!((k, v).1 == g)) = true := by simp [hk]
      rw [h1]
      simp only [if_true]
      by_cases hs : s = k
      · subst hs
        simp [List.lookup]
      · rw [lookup_cons_ne v _ hs, lookup_cons_ne v rest hs, ih]

theorem lookup_filter_self {β : Type} (l : List (String × β)) (g : String) :
    (l.filter fun p => !(p.1 == g)).lookup g = none := by
  induction l with
  | nil => rfl
  | cons p rest ih =>
    rcases p with ⟨k, v⟩
    rw [List.filter_cons]
    by_cases hk : k = g
    · have h1 : (!((k, v).1 == g)) = false := by simp [hk]
      rw [h1]
      simpa using ih
    · have h1 : (!((k, v).1 == g)) = true := by simp [hk]
      rw [h1]
      simp only [if_true]
      rw [lookup_cons_ne v _ (fun he => hk he.symm)]
      exact ih

theorem lookup_mem {β : Type} {l : List (String × β)} {s : String} {v : β}
    (h : l.lookup s = some v) : (s, v) ∈ l := by
  induction l with
  | nil => simp [List.lookup] at h
  | cons p rest ih =>
    rcases p with ⟨k, b⟩
    by_cases hk : s = k
    · subst hk
      simp [List.lookup] at h
      simp [h]
    · rw [lookup_cons_ne b rest hk] at h
      exact List.mem_cons_of_mem _ (ih h)

theorem lookup_eq_none_of_not_mem_keys {β : Type} {l : List (String × β)}
    {s : String} (h : s ∉ l.map Prod.fst) : l.lookup s = none := by
  induction l with
  | nil => rfl
  | cons p rest ih =>
    simp only [List.map_cons, List.mem_cons, not_or] at h
    rcases p with ⟨k, b⟩
    rw [lookup_cons_ne b rest h.1]
    exact ih h.2

theorem not_mem_keys_of_lookup_eq_none {β : Type} {l : List (String × β)}
    {s : String} (h : l.lookup s = none) : s ∉ l.map Prod.fst := by
  induction l with
  | nil => simp
  | cons p rest ih =>
    rcases p with ⟨k, b⟩
    by_cases hk : s = k
    · subst hk; simp [List.lookup] at h
    · rw [lookup_cons_ne b rest hk] at h
      simp only [List.map_cons, List.mem_cons, not_or]
      exact ⟨hk, ih h⟩

/-- Every broadcast that returns normally sent nothing: the collection was
empty (with a non-empty collection the `WebSocket` dereference throws). -/
theorem jsBroadcast_ok_eq_nil {conns : List Conn} {m : Msg} {evs : List Ev}
    (h : jsBroadcast conns m = .ok evs) : evs = [] ∧ conns = [] := by
  cases conns with
  | nil =>
    rw [jsBroadcast] at h
    cases h
    exact ⟨rfl, rfl⟩
  | cons c rest => rw [jsBroadcast] at h; cases h

theorem processVideo_mem (enc : String → Except String Unit) (f vid : String) :
    ∀ e ∈ (processVideo enc f vid).1,
      e = Ev.procStart f vid ∨ e = Ev.procEnd f vid := by
  unfold processVideo
  cases enc f <;> simp

theorem pruneEntry_store (now : Int) (store : Store) (procd : List String)
    (e : String × Option Int) :
    (pruneEntry now store procd e).1.uploads = store.uploads
    ∧ (pruneEntry now store procd e).1.metas = store.metas := by
  unfold pruneEntry
  repeat' split
  all_goals simp [Store.eraseFlag]

theorem pruneEntry_flags_ne (now : Int) (store : Store) (procd : List String)
    (e : String × Option Int) {s : String} (h : s ≠ e.1) :
    (pruneEntry now store procd e).1.flags.lookup s = store.flags.lookup s := by
  unfold pruneEntry
  repeat' split
  all_goals simp [Store.eraseFlag, lookup_filter_ne _ h]

theorem pruneEntry_procd_mono (now : Int) (store : Store) (procd : List String)
    (e : String × Option Int) {x : String} (h : x ∈ procd) :
    x ∈ (pruneEntry now store procd e).2.1 := by
  unfold pruneEntry
  repeat' split
  all_goals simp [List.mem_insert_iff, h]

theorem pruneEntry_trace_shape (now : Int) (store : Store) (procd : List String)
    (e : String × Option Int) :
    (pruneEntry now store procd e).2.2 = []
    ∨ (pruneEntry now store procd e).2.2 = [Ev.unlinkFlag e.1] := by
  unfold pruneEntry
  repeat' split
  all_goals simp

theorem prunePhase_store_const (now : Int) :
    ∀ (es : List (String × Option Int)) (st : ScanSt),
      (prunePhase now st es).store.uploads = st.store.uploads
      ∧ (prunePhase now st es).store.metas = st.store.metas := by
  intro es
  induction es with
  | nil => intro st; exact ⟨rfl, rfl⟩
  | cons e rest ih =>
    intro st
    rw [prunePhase]
    obtain ⟨h1, h2⟩ := pruneEntry_store now st.store st.procd e
    obtain ⟨h3, h4⟩ := ih ⟨(pruneEntry now st.store st.procd e).1,
      (pruneEntry now st.store st.procd e).2.1,
      st.trace ++ (pruneEntry now st.store st.procd e).2.2⟩
    exact ⟨h3.trans h1, h4.trans h2⟩

theorem prunePhase_trace_mono (now : Int) :
    ∀ (es : List (String × Option Int)) (st : ScanSt) (e : Ev),
      e ∈ st.trace → e ∈ (prunePhase now st es).trace := by
  intro es
  induction es with
  | nil => intro st e he; exact he
  | cons a rest ih =>
    intro st e he
    rw [prunePhase]
    exact ih _ e (List.mem_append_left _ he)

theorem prunePhase_procd_mono (now : Int) :
    ∀ (es : List (String × Option Int)) (st : ScanSt) (x : String),
      x ∈ st.procd → x ∈ (prunePhase now st es).procd := by
  intro es
  induction es with
  | nil => intro st x hx; exact hx
  | cons a rest ih =>
    intro st x hx
    rw [prunePhase]
    exact ih _ x (pruneEntry_procd_mono now st.store st.procd a hx)

theorem prunePhase_untouched (now : Int) (s : String) :
    ∀ (es : List (String × Option Int)) (st : ScanSt),
      s ∉ es.map Prod.fst →
      (prunePhase now st es).store.flags.lookup s = st.store.flags.lookup s := by
  intro es
  induction es with
  | nil => intro st _; rfl
  | cons a rest ih =>
    intro st hs
    simp only [List.map_cons, List.mem_cons, not_or] at hs
    rw [prunePhase]
    rw [ih _ hs.2]
    exact pruneEntry_flags_ne now st.store st.procd a hs.1

/-- A fresh, parseable claim marker whose source file exists survives the
pruning phase and records its file in `processedVideoIds`. -/
theorem prunePhase_keep (now ts : Int) (s : String) :
    ∀ (es : List (String × Option Int)) (st : ScanSt),
      (es.map Prod.fst).Nodup → (s, some ts) ∈ es → ¬ now - ts > ttlMs →
      (st.store.uploads.lookup s).isSome →
      s ∈ (prunePhase now st es).procd
      ∧ (prunePhase now st es).store.flags.lookup s = st.store.flags.lookup s := by
  intro es
  induction es with
  | nil => intro st _ hmem; exact absurd hmem (List.not_mem_nil _)
  | cons a rest ih =>
    intro st hnd hmem hfresh hsrc
    have hndr : (rest.map Prod.fst).Nodup := (List.nodup_cons.mp hnd).2
    rcases List.mem_cons.mp hmem with heq | hrest
    · subst heq
      have hs_not_rest : s ∉ rest.map Prod.fst := by
        have := (List.nodup_cons.mp hnd).1
        simpa using this
      rw [prunePhase]
      have hPE : pruneEntry now st.store st.procd (s, some ts)
          = (st.store, st.procd.insert s, []) := by
        unfold pruneEntry
        simp only [hsrc, if_true]
        simp [hfresh]
      rw [hPE]
      constructor
      · exact prunePhase_procd_mono now rest _ s (by simp [List.mem_insert_iff])
      · rw [prunePhase_untouched now s rest _ hs_not_rest]
    · have ha : a.1 ≠ s := by
        intro h
        exact (List.nodup_cons.mp hnd).1 (h ▸ (List.mem_map_of_mem Prod.fst hrest))
      rw [prunePhase]
      have hu := (pruneEntry_store now st.store st.procd a).1
      obtain ⟨ih1, ih2⟩ := ih ⟨(pruneEntry now st.store st.procd a).1,
          (pruneEntry now st.store st.procd a).2.1,
          st.trace ++ (pruneEntry now st.store st.procd a).2.2⟩
        hndr hrest hfresh (by rw [hu]; exact hsrc)
      refine ⟨ih1, ih2.trans ?_⟩
      exact pruneEntry_flags_ne now st.store st.procd a (fun h => ha h.symm)

/-- An orphaned marker (source gone) or a stale parseable marker is unlinked
by the pruning phase, with the unlink event in the trace. -/
theorem prunePhase_remove (now : Int) (s : String) (c : Option Int) :
    ∀ (es : List (String × Option Int)) (st : ScanSt),
      (es.map Prod.fst).Nodup → (s, c) ∈ es →
      (st.store.uploads.lookup s = none
        ∨ ∃ ts, c = some ts ∧ now - ts > ttlMs) →
      Ev.unlinkFlag s ∈ (prunePhase now st es).trace
      ∧ (prunePhase now st es).store.flags.lookup s = none := by
  intro es
  induction es with
  | nil => intro st _ hmem; exact absurd hmem (List.not_mem_nil _)
  | cons a rest ih =>
    intro st hnd hmem hcond
    have hndr : (rest.map Prod.fst).Nodup := (List.nodup_cons.mp hnd).2
    rcases List.mem_cons.mp hmem with heq | hrest
    · subst heq
      have hs_not_rest : s ∉ rest.map Prod.fst := by
        have := (List.nodup_cons.mp hnd).1
        simpa using this
      rw [prunePhase]
      have hPE : pruneEntry now st.store st.procd (s, c)
          = (st.store.eraseFlag s, st.procd, [Ev.unlinkFlag s]) := by
        unfold pruneEntry
        rcases hcond with hnone | ⟨ts, hts, hstale⟩
        · simp [hnone]
        · subst hts
          by_cases hsrc : (st.store.uploads.lookup s).isSome
          · simp [hsrc, hstale]
          · simp [hsrc]
      rw [hPE]
      constructor
      · exact prunePhase_trace_mono now rest _ _ (by simp)
      · rw [prunePhase_untouched now s rest _ hs_not_rest]
        simp [Store.eraseFlag, lookup_filter_self]
    · have ha : a.1 ≠ s := by
        intro h
        exact (List.nodup_cons.mp hnd).1 (h ▸ (List.mem_map_of_mem Prod.fst hrest))
      rw [prunePhase]
      have hu := (pruneEntry_store now st.store st.procd a).1
      exact ih ⟨(pruneEntry now st.store st.procd a).1,
          (pruneEntry now st.store st.procd a).2.1,
          st.trace ++ (pruneEntry now st.store st.procd a).2.2⟩
        hndr hrest (by rw [hu]; exact hcond)

theorem scanFile_uploads_metas (now : Int) (clients : List Conn)
    (enc : String → Except String Unit) (gen : String → String)
    (store : Store) (procd : List String) (f : String) :
    (scanFile now clients enc gen store procd f).1.uploads = store.uploads
    ∧ (scanFile now clients enc gen store procd f).1.metas = store.metas := by
  cases clients <;> cases henc : enc f <;>
    unfold scanFile processVideo <;>
    simp only [jsBroadcast, moduleWebSocket, henc] <;>
    repeat' split
  all_goals simp [Store.setFlag, Store.eraseFlag, Store.addHls]

theorem scanFile_flags_ne (now : Int) (clients : List Conn)
    (enc : String → Except String Unit) (gen : String → String)
    (store : Store) (procd : List String) (f : String) {s : String} (h : s ≠ f) :
    (scanFile now clients enc gen store procd f).1.flags.lookup s
      = store.flags.lookup s := by
  cases clients <;> cases henc : enc f <;>
    unfold scanFile processVideo <;>
    simp only [jsBroadcast, moduleWebSocket, henc] <;>
    repeat' split
  all_goals
    simp [Store.setFlag, Store.eraseFlag, Store.addHls,
      lookup_filter_ne _ h, lookup_cons_ne _ _ h]

theorem scanFile_procd_mono (now : Int) (clients : List Conn)
    (enc : String → Except String Unit) (gen : String → String)
    (store : Store) (procd : List String) (f : String) {x : String}
    (hx : x ∈ procd) :
    x ∈ (scanFile now clients enc gen store procd f).2.1 := by
  cases clients <;> cases henc : enc f <;>
    unfold scanFile processVideo <;>
    simp only [jsBroadcast, moduleWebSocket, henc] <;>
    repeat' split
  all_goals simp [List.mem_insert_iff, hx]

theorem scanFile_block_mem (now : Int) (clients : List Conn)
    (enc : String → Except String Unit) (gen : String → String)
    (store : Store) (procd : List String) (f : String) :
    ∀ e ∈ (scanFile now clients enc gen store procd f).2.2,
      e = Ev.writeFlag f ∨ e = Ev.unlinkFlag f
      ∨ e = Ev.procStart f (gen f) ∨ e = Ev.procEnd f (gen f) := by
  intro e he
  cases clients <;> cases henc : enc f <;>
    unfold scanFile processVideo at he <;>
    simp only [jsBroadcast, moduleWebSocket, henc] at he <;>
    repeat' split at he
  all_goals simp_all
  all_goals tauto

theorem scanPhase_trace_mono (now : Int) (clients : List Conn)
    (enc : String → Except String Unit) (gen : String → String) :
    ∀ (fs : List String) (st : ScanSt) (e : Ev),
      e ∈ st.trace → e ∈ (scanPhase now clients enc gen st fs).trace := by
  intro fs
  induction fs with
  | nil => intro st e he; exact he
  | cons g rest ih =>
    intro st e he
    rw [scanPhase]
    exact ih _ e (List.mem_append_left _ he)

theorem scanPhase_procd_mono (now : Int) (clients : List Conn)
    (enc : String → Except String Unit) (gen : String → String) :
    ∀ (fs : List String) (st : ScanSt) (x : String),
      x ∈ st.procd → x ∈ (scanPhase now clients enc gen st fs).procd := by
  intro fs
  induction fs with
  | nil => intro st x hx; exact hx
  | cons g rest ih =>
    intro st x hx
    rw [scanPhase]
    exact ih _ x (scanFile_procd_mono now clients enc gen st.store st.procd g hx)

theorem scanPhase_flags_preserve (now : Int) (clients : List Conn)
    (enc : String → Except String Unit) (gen : String → String) (s : String) :
    ∀ (fs : List String) (st : ScanSt), (∀ g ∈ fs, g ≠ s) →
      (scanPhase now clients enc gen st fs).store.flags.lookup s
        = st.store.flags.lookup s := by
  intro fs
  induction fs with
  | nil => intro st _; rfl
  | cons g rest ih =>
    intro st hg
    rw [scanPhase]
    rw [ih _ (fun x hx => hg x (List.mem_cons_of_mem _ hx))]
    exact scanFile_flags_ne now clients enc gen st.store st.procd g
      (fun h => hg g (List.mem_cons_self _ _) h.symm)

theorem scanPhase_no_events_about (now : Int) (clients : List Conn)
    (enc : String → Except String Unit) (gen : String → String) (s : String) :
    ∀ (fs : List String) (st : ScanSt), (∀ g ∈ fs, g ≠ s) →
      (∀ vid, Ev.procStart s vid ∉ st.trace) → Ev.writeFlag s ∉ st.trace →
      (∀ vid, Ev.procStart s vid ∉ (scanPhase now clients enc gen st fs).trace)
      ∧ Ev.writeFlag s ∉ (scanPhase now clients enc gen st fs).trace := by
  intro fs
  induction fs with
  | nil => intro st _ h1 h2; exact ⟨h1, h2⟩
  | cons g rest ih =>
    intro st hg h1 h2
    rw [scanPhase]
    have hgs : g ≠ s := hg g (List.mem_cons_self _ _)
    refine ih _ (fun x hx => hg x (List.mem_cons_of_mem _ hx)) ?_ ?_
    · intro vid hmem
      rcases List.mem_append.mp hmem with hm | hm
      · exact h1 vid hm
      · rcases scanFile_block_mem now clients enc gen st.store st.procd g _ hm with
          h | h | h | h
        · exact Ev.noConfusion h
        · exact Ev.noConfusion h
        · injection h with ha hb; exact hgs ha.symm
        · exact Ev.noConfusion h
    · intro hmem
      rcases List.mem_append.mp hmem with hm | hm
      · exact h2 hm
      · rcases scanFile_block_mem now clients enc gen st.store st.procd g _ hm with
          h | h | h | h
        · injection h with ha; exact hgs ha.symm
        · exact Ev.noConfusion h
        · exact Ev.noConfusion h
        · exact Ev.noConfusion h

theorem scanPhase_uploads_metas (now : Int) (clients : List Conn)
    (enc : String → Except String Unit) (gen : String → String) :
    ∀ (fs : List String) (st : ScanSt),
      (scanPhase now clients enc gen st fs).store.uploads = st.store.uploads
      ∧ (scanPhase now clients enc gen st fs).store.metas = st.store.metas := by
  intro fs
  induction fs with
  | nil => intro st; exact ⟨rfl, rfl⟩
  | cons g rest ih =>
    intro st
    rw [scanPhase]
    obtain ⟨h1, h2⟩ := scanFile_uploads_metas now clients enc gen st.store st.procd g
    obtain ⟨h3, h4⟩ := ih ⟨(scanFile now clients enc gen st.store st.procd g).1,
      (scanFile now clients enc gen st.store st.procd g).2.1,
      st.trace ++ (scanFile now clients enc gen st.store st.procd g).2.2⟩
    exact ⟨h3.trans h1, h4.trans h2⟩

/-- Every candidate the second phase iterates over is a data file of the
uploads directory that is not in `processedVideoIds`. -/
theorem candidate_mem (store : Store) (procd : List String) :
    ∀ g ∈ ((readdirNames store).filter fun n =>
        !n.isJson && !n.isFlag && !(procd.contains n.name)).map FName.name,
      g ∈ store.uploads.map Prod.fst ∧ g ∉ procd := by
  intro g hg
  rcases List.mem_map.mp hg with ⟨n, hn, hname⟩
  rcases List.mem_filter.mp hn with ⟨hmem, hcond⟩
  cases n with
  | data b =>
    simp only [FName.name] at hname
    subst hname
    simp only [FName.isJson, FName.isFlag, FName.name, Bool.not_false, Bool.true_and,
      Bool.and_eq_true, Bool.not_eq_true'] at hcond
    constructor
    · rw [readdirNames] at hmem
      rcases List.mem_append.mp hmem with h12 | h3
      · rcases List.mem_append.mp h12 with h1 | h2
        · rcases List.mem_map.mp h1 with ⟨p, hp, he⟩
          injection he with hbe
          exact hbe ▸ List.mem_map_of_mem Prod.fst hp
        · rcases List.mem_map.mp h2 with ⟨p, hp, he⟩
          exact FName.noConfusion he
      · rcases List.mem_map.mp h3 with ⟨p, hp, he⟩
        exact FName.noConfusion he
    · intro hb
      have : procd.contains b = true := List.elem_iff.mpr hb
      rw [this] at hcond
      exact Bool.noConfusion hcond
  | json b => simp [FName.isJson] at hcond
  | flag b => simp [FName.isFlag] at hcond

theorem claimBefore_append {f vid : String} {t1 t2 : List Ev}
    (h1 : ClaimBefore f vid t1) (h2 : ClaimBefore f vid t2) :
    ClaimBefore f vid (t1 ++ t2) := by
  intro hmem
  rcases List.mem_append.mp hmem with hm | hm
  · obtain ⟨pre, post, heq, hp⟩ := h1 hm
    exact ⟨pre, post ++ t2, by rw [heq]; simp, List.mem_append_left _ hp⟩
  · obtain ⟨pre, post, heq, hp⟩ := h2 hm
    exact ⟨t1 ++ pre, post, by rw [heq]; simp, hp⟩

/-- Every per-candidate block is empty or starts with the marker write. -/
theorem scanFile_block_shape (now : Int) (clients : List Conn)
    (enc : String → Except String Unit) (gen : String → String)
    (store : Store) (procd : List String) (g : String) :
    (scanFile now clients enc gen store procd g).2.2 = []
    ∨ ∃ rest, (scanFile now clients enc gen store procd g).2.2
        = Ev.writeFlag g :: rest := by
  cases clients <;> cases henc : enc g <;>
    unfold scanFile processVideo <;>
    simp only [jsBroadcast, moduleWebSocket, henc] <;>
    repeat' split
  all_goals simp

theorem scanFile_block_claimBefore (now : Int) (clients : List Conn)
    (enc : String → Except String Unit) (gen : String → String)
    (store : Store) (procd : List String) (g f vid : String) :
    ClaimBefore f vid (scanFile now clients enc gen store procd g).2.2 := by
  intro hmem
  have hfg : f = g := by
    have hb := scanFile_block_mem now clients enc gen store procd g _ hmem
    rcases hb with h | h | h | h
    · exact Ev.noConfusion h
    · exact Ev.noConfusion h
    · cases h; rfl
    · exact Ev.noConfusion h
  rcases scanFile_block_shape now clients enc gen store procd g with hnil | ⟨rest, hcons⟩
  · rw [hnil] at hmem
    exact absurd hmem (List.not_mem_nil _)
  · refine ⟨[], rest, by rw [hcons, hfg]; rfl, ?_⟩
    rw [hcons] at hmem
    rcases List.mem_cons.mp hmem with h | h
    · exact Ev.noConfusion h
    · exact h

theorem scanPhase_claimBefore (now : Int) (clients : List Conn)
    (enc : String → Except String Unit) (gen : String → String)
    (f vid : String) :
    ∀ (fs : List String) (st : ScanSt), ClaimBefore f vid st.trace →
      ClaimBefore f vid (scanPhase now clients enc gen st fs).trace := by
  intro fs
  induction fs with
  | nil => intro st h; exact h
  | cons g rest ih =>
    intro st h
    rw [scanPhase]
    exact ih _ (claimBefore_append h
      (scanFile_block_claimBefore now clients enc gen st.store st.procd g f vid))

theorem prunePhase_claimBefore (now : Int) (f vid : String) :
    ∀ (es : List (String × Option Int)) (st : ScanSt),
      ClaimBefore f vid st.trace →
      ClaimBefore f vid (prunePhase now st es).trace := by
  intro es
  induction es with
  | nil => intro st h; exact h
  | cons a rest ih =>
    intro st h
    rw [prunePhase]
    have hb : ClaimBefore f vid (pruneEntry now st.store st.procd a).2.2 := by
      intro hmem
      rcases pruneEntry_trace_shape now st.store st.procd a with hs | hs <;>
        rw [hs] at hmem <;> simp at hmem
    exact ih _ (claimBefore_append h hb)

/-- The variant loop emits only encode events. -/
theorem pushVariants_mem (enc : Nat → Except String Unit) (conns : List Conn)
    (vid : String) :
    ∀ (qs : List Quality) (i : Nat) (b : Bool),
      ∀ e ∈ (pushVariants enc conns vid qs i b).1,
        (∃ q, e = Ev.encodeRun vid q) ∨ (∃ q, e = Ev.encodeEnd vid q) := by
  intro qs
  induction qs with
  | nil =>
    intro i b e he
    rw [pushVariants] at he
    exact absurd he (List.not_mem_nil _)
  | cons q rest ih =>
    intro i b e he
    cases conns with
    | nil =>
      rw [pushVariants] at he
      simp only [jsBroadcast, List.nil_append] at he
      split at he
      · split at he
        · rcases List.mem_cons.mp he with h | h2
          · exact Or.inl ⟨q.name, h⟩
          · rcases List.mem_cons.mp h2 with h | h3
            · exact Or.inr ⟨q.name, h⟩
            · exact ih (i + 1) true e h3
        · rcases List.mem_cons.mp he with h | h2
          · exact Or.inl ⟨q.name, h⟩
          · exact absurd h2 (List.not_mem_nil _)
      · split at he
        · rcases List.mem_cons.mp he with h | h2
          · exact Or.inl ⟨q.name, h⟩
          · rcases List.mem_cons.mp h2 with h | h3
            · exact Or.inr ⟨q.name, h⟩
            · exact ih (i + 1) true e h3
        · rcases List.mem_cons.mp he with h | h2
          · exact Or.inl ⟨q.name, h⟩
          · exact absurd h2 (List.not_mem_nil _)
    | cons c cs =>
      rw [pushVariants] at he
      simp only [jsBroadcast, moduleWebSocket] at he
      split at he
      · split at he
        · rcases List.mem_cons.mp he with h | h2
          · exact Or.inl ⟨q.name, h⟩
          · rcases List.mem_cons.mp h2 with h | h3
            · exact Or.inr ⟨q.name, h⟩
            · exact ih (i + 1) true e h3
        · rcases List.mem_cons.mp he with h | h2
          · exact Or.inl ⟨q.name, h⟩
          · exact absurd h2 (List.not_mem_nil _)
      · rcases List.mem_cons.mp he with h | h2
        · exact Or.inl ⟨q.name, h⟩
        · exact absurd h2 (List.not_mem_nil _)

/-- The push path never writes a claim marker. -/
theorem uploadFinish_no_writeFlag (fp : Bool) (pr : Except String Dim)
    (enc : Nat → Except String Unit) (conns : List Conn) (vid : String) :
    ∀ e ∈ (uploadFinish fp pr enc conns vid).1, e.isWriteFlag = false := by
  intro e he
  rcases hpv : pushVariants enc conns vid qualities 0 false with ⟨t, err⟩
  have hT : ∀ e2 ∈ t, e2.isWriteFlag = false := by
    intro e2 he2
    have hm := pushVariants_mem enc conns vid qualities 0 false e2
      (by rw [hpv]; exact he2)
    rcases hm with ⟨q2, hq⟩ | ⟨q2, hq⟩ <;> simp [hq, Ev.isWriteFlag]
  cases fp with
  | false =>
    unfold uploadFinish at he
    simp at he
  | true =>
    cases pr with
    | error m =>
      unfold uploadFinish pushCatch at he
      cases conns with
      | nil =>
        simp [jsBroadcast] at he
        simp [he, Ev.isWriteFlag]
      | cons c cs =>
        simp [jsBroadcast, moduleWebSocket] at he
        simp [he, Ev.isWriteFlag]
    | ok d =>
      unfold uploadFinish pushCatch at he
      rw [hpv] at he
      cases err with
      | none =>
        simp at he
        rcases he with h | h | h | h
        · simp [h, Ev.isWriteFlag]
        · simp [h, Ev.isWriteFlag]
        · exact hT e h
        · simp [h, Ev.isWriteFlag]
      | some er =>
        cases conns with
        | nil =>
          simp [jsBroadcast] at he
          rcases he with h | h | h
          · simp [h, Ev.isWriteFlag]
          · simp [h, Ev.isWriteFlag]
          · exact hT e h
        | cons c cs =>
          simp [jsBroadcast, moduleWebSocket] at he
          rcases he with h | h | h
          · simp [h, Ev.isWriteFlag]
          · simp [h, Ev.isWriteFlag]
          · exact hT e h

theorem prunePhase_trace_unlink (now : Int) :
    ∀ (es : List (String × Option Int)) (st : ScanSt),
      ∀ e ∈ (prunePhase now st es).trace,
        e ∈ st.trace ∨ ∃ g, e = Ev.unlinkFlag g := by
  intro es
  induction es with
  | nil => intro st e he; exact Or.inl he
  | cons a rest ih =>
    intro st e he
    rw [prunePhase] at he
    rcases ih _ e he with h | h
    · rcases List.mem_append.mp h with h2 | h2
      · exact Or.inl h2
      · rcases pruneEntry_trace_shape now st.store st.procd a with hs | hs <;>
          rw [hs] at h2
        · exact absurd h2 (List.not_mem_nil _)
        · exact Or.inr ⟨a.1, List.mem_singleton.mp h2⟩
    · exact Or.inr h

/-- Unfolding of one scanner run into its two phases. -/
theorem checkForCompletedUploads_eq (store : Store) (now : Int)
    (clients : List Conn) (enc : String → Except String Unit)
    (gen : String → String) :
    checkForCompletedUploads store now clients enc gen
      = scanPhase now clients enc gen (prunePhase now ⟨store, [], []⟩ store.flags)
          (((readdirNames (prunePhase now ⟨store, [], []⟩ store.flags).store).filter
              fun n => !n.isJson && !n.isFlag
                && !((prunePhase now ⟨store, [], []⟩ store.flags).procd.contains n.name)).map
            FName.name) := rfl

/-- C2: a fresh (younger than the TTL) claim marker for a source that still
exists makes every later claim attempt in a scan run fail: the run does not
start an encode for that source, writes no new marker for it, and leaves the
existing marker in place. -/
theorem c2_fresh_claim_blocks_second_attempt (store : Store) (now ts : Int)
    (clients : List Conn) (enc : String → Except String Unit)
    (gen : String → String) (s : String)
    (hflag : store.flags.lookup s = some (some ts))
    (hfresh : ¬ now - ts > ttlMs)
    (hsrc : (store.uploads.lookup s).isSome)
    (hnodup : (store.flags.map Prod.fst).Nodup) :
    (∀ vid, Ev.procStart s vid ∉ (checkForCompletedUploads store now clients enc gen).trace)
    ∧ Ev.writeFlag s ∉ (checkForCompletedUploads store now clients enc gen).trace
    ∧ (checkForCompletedUploads store now clients enc gen).store.flags.lookup s
        = some (some ts) := by
  have hmem : (s, some ts) ∈ store.flags := lookup_mem hflag
  have hkeep := prunePhase_keep now ts s store.flags ⟨store, [], []⟩ hnodup hmem hfresh hsrc
  rw [checkForCompletedUploads_eq]
  have hfiles : ∀ g ∈ (((readdirNames (prunePhase now ⟨store, [], []⟩ store.flags).store).filter
      fun n => !n.isJson && !n.isFlag
        && !((prunePhase now ⟨store, [], []⟩ store.flags).procd.contains n.name)).map
      FName.name), g ≠ s := by
    intro g hg heq
    exact (candidate_mem _ _ g hg).2 (heq ▸ hkeep.1)
  have htr : ∀ e ∈ (prunePhase now ⟨store, [], []⟩ store.flags).trace,
      ∃ g, e = Ev.unlinkFlag g := by
    intro e hee
    rcases prunePhase_trace_unlink now store.flags ⟨store, [], []⟩ e hee with h | h
    · exact absurd h (List.not_mem_nil _)
    · exact h
  have hno1 : ∀ vid, Ev.procStart s vid ∉ (prunePhase now ⟨store, [], []⟩ store.flags).trace := by
    intro vid hmm
    rcases htr _ hmm with ⟨g, hgeq⟩
    exact Ev.noConfusion hgeq
  have hno2 : Ev.writeFlag s ∉ (prunePhase now ⟨store, [], []⟩ store.flags).trace := by
    intro hmm
    rcases htr _ hmm with ⟨g, hgeq⟩
    exact Ev.noConfusion hgeq
  obtain ⟨hA, hB⟩ := scanPhase_no_events_about now clients enc gen s _ _ hfiles hno1 hno2
  refine ⟨hA, hB, ?_⟩
  rw [scanPhase_flags_preserve now clients enc gen s _ _ hfiles]
  rw [hkeep.2]
  exact hflag

/-- C2 witness: a marker 5 ms old with a 100-byte completed source. -/
theorem c2_fresh_claim_blocks_second_attempt_witness :
    ((⟨[("a", 100)], [("a", 100)], [("a", some 5)], []⟩ : Store).flags.lookup "a"
        = some (some 5)
      ∧ ¬ (10 : Int) - 5 > ttlMs
      ∧ ((⟨[("a", 100)], [("a", 100)], [("a", some 5)], []⟩ : Store).uploads.lookup "a").isSome
      ∧ (((⟨[("a", 100)], [("a", 100)], [("a", some 5)], []⟩ : Store).flags.map Prod.fst).Nodup))
    ∧ ((∀ vid, Ev.procStart "a" vid ∉
        (checkForCompletedUploads ⟨[("a", 100)], [("a", 100)], [("a", some 5)], []⟩ 10 []
          encOk (fun _ => "v")).trace)
    ∧ Ev.writeFlag "a" ∉
        (checkForCompletedUploads ⟨[("a", 100)], [("a", 100)], [("a", some 5)], []⟩ 10 []
          encOk (fun _ => "v")).trace
    ∧ (checkForCompletedUploads ⟨[("a", 100)], [("a", 100)], [("a", some 5)], []⟩ 10 []
        encOk (fun _ => "v")).store.flags.lookup "a" = some (some 5)) :=
  ⟨⟨by decide, by decide, by decide, by decide⟩,
    c2_fresh_claim_blocks_second_attempt
      ⟨[("a", 100)], [("a", 100)], [("a", some 5)], []⟩ 10 5 [] encOk (fun _ => "v") "a"
      (by decide) (by decide) (by decide) (by decide)⟩

/-- C3: for every claim marker present at the start of a scan run, if the
source file it refers to no longer exists the run unlinks the orphaned marker
(and it stays gone, so the source is claimable again); and if the marker's
timestamp is older than the 30-minute TTL the run unlinks it in its pruning
phase, after which no marker for the source remains and it is claimable
again. -/
theorem c3_orphan_and_stale_markers_removed (store : Store) (now : Int)
    (clients : List Conn) (enc : String → Except String Unit)
    (gen : String → String) (f : String) (c : Option Int)
    (hmem : (f, c) ∈ store.flags)
    (hnodup : (store.flags.map Prod.fst).Nodup) :
    (store.uploads.lookup f = none →
        Ev.unlinkFlag f ∈ (checkForCompletedUploads store now clients enc gen).trace
        ∧ (checkForCompletedUploads store now clients enc gen).store.flags.lookup f
            = none)
    ∧ (∀ ts, c = some ts → now - ts > ttlMs →
        Ev.unlinkFlag f ∈ (checkForCompletedUploads store now clients enc gen).trace
        ∧ (prunePhase now ⟨store, [], []⟩ store.flags).store.flags.lookup f = none) := by
  rw [checkForCompletedUploads_eq]
  constructor
  · intro hnone
    obtain ⟨hU, hL⟩ := prunePhase_remove now f c store.flags ⟨store, [], []⟩
      hnodup hmem (Or.inl hnone)
    constructor
    · exact scanPhase_trace_mono now clients enc gen _ _ _ hU
    · have hfiles : ∀ g ∈ (((readdirNames (prunePhase now ⟨store, [], []⟩ store.flags).store).filter
          fun n => !n.isJson && !n.isFlag
            && !((prunePhase now ⟨store, [], []⟩ store.flags).procd.contains n.name)).map
          FName.name), g ≠ f := by
        intro g hg heq
        have h1 := (candidate_mem _ _ g hg).1
        rw [(prunePhase_store_const now store.flags ⟨store, [], []⟩).1] at h1
        exact not_mem_keys_of_lookup_eq_none hnone (heq ▸ h1)
      rw [scanPhase_flags_preserve now clients enc gen f _ _ hfiles]
      exact hL
  · intro ts hts hstale
    obtain ⟨hU, hL⟩ := prunePhase_remove now f c store.flags ⟨store, [], []⟩
      hnodup hmem (Or.inr ⟨ts, hts, hstale⟩)
    exact ⟨scanPhase_trace_mono now clients enc gen _ _ _ hU, hL⟩

/-- C3 witness: an orphaned marker (no source file) in an otherwise empty
directory. -/
theorem c3_orphan_and_stale_markers_removed_witness :
    ((("a", some 0) ∈ (⟨[], [], [("a", some 0)], []⟩ : Store).flags)
      ∧ ((⟨[], [], [("a", some 0)], []⟩ : Store).flags.map Prod.fst).Nodup)
    ∧ (((⟨[], [], [("a", some 0)], []⟩ : Store).uploads.lookup "a" = none →
        Ev.unlinkFlag "a" ∈ (checkForCompletedUploads ⟨[], [], [("a", some 0)], []⟩ 1 []
          encOk (fun _ => "v")).trace
        ∧ (checkForCompletedUploads ⟨[], [], [("a", some 0)], []⟩ 1 []
            encOk (fun _ => "v")).store.flags.lookup "a" = none)
    ∧ (∀ ts, (some 0 : Option Int) = some ts → (1 : Int) - ts > ttlMs →
        Ev.unlinkFlag "a" ∈ (checkForCompletedUploads ⟨[], [], [("a", some 0)], []⟩ 1 []
          encOk (fun _ => "v")).trace
        ∧ (prunePhase 1 ⟨⟨[], [], [("a", some 0)], []⟩, [], []⟩
            [("a", some 0)]).store.flags.lookup "a" = none)) :=
  ⟨⟨by decide, by decide⟩,
    c3_orphan_and_stale_markers_removed ⟨[], [], [("a", some 0)], []⟩ 1 []
      encOk (fun _ => "v") "a" (some 0) (by decide) (by decide)⟩

/-- C1 amended: only the reconciliation-scan path acquires the on-disk claim
marker before encoding — in every scan run each encode start is preceded in
the trace by the write of that source's marker — while the push-based
`upload-finish` handler emits no marker write at all, so the two trigger
paths do not route through the same claim marker. -/
theorem c1_amended_claim_only_on_scan_path (store : Store) (now : Int)
    (clients : List Conn) (enc : String → Except String Unit)
    (gen : String → String) (f vid : String)
    (h : Ev.procStart f vid ∈ (checkForCompletedUploads store now clients enc gen).trace) :
    (∃ pre post, (checkForCompletedUploads store now clients enc gen).trace
        = pre ++ Ev.writeFlag f :: post ∧ Ev.procStart f vid ∈ post)
    ∧ ∀ (fp : Bool) (pr : Except String Dim) (enc2 : Nat → Except String Unit)
        (conns : List Conn) (vid2 : String),
        ∀ e ∈ (uploadFinish fp pr enc2 conns vid2).1, e.isWriteFlag = false := by
  constructor
  · have hcb : ClaimBefore f vid (checkForCompletedUploads store now clients enc gen).trace := by
      rw [checkForCompletedUploads_eq]
      apply scanPhase_claimBefore
      apply prunePhase_claimBefore
      intro hmm
      exact absurd hmm (List.not_mem_nil _)
    exact hcb h
  · exact fun fp pr enc2 conns vid2 => uploadFinish_no_writeFlag fp pr enc2 conns vid2

/-- C1 amended witness: a scan run that does encode a completed upload. -/
theorem c1_amended_claim_only_on_scan_path_witness :
    (Ev.procStart "a" "v" ∈ (checkForCompletedUploads ⟨[("a", 7)], [("a", 7)], [], []⟩ 0 []
        encOk (fun _ => "v")).trace)
    ∧ ((∃ pre post, (checkForCompletedUploads ⟨[("a", 7)], [("a", 7)], [], []⟩ 0 []
          encOk (fun _ => "v")).trace
          = pre ++ Ev.writeFlag "a" :: post ∧ Ev.procStart "a" "v" ∈ post)
    ∧ ∀ (fp : Bool) (pr : Except String Dim) (enc2 : Nat → Except String Unit)
        (conns : List Conn) (vid2 : String),
        ∀ e ∈ (uploadFinish fp pr enc2 conns vid2).1, e.isWriteFlag = false) :=
  ⟨by decide,
    c1_amended_claim_only_on_scan_path ⟨[("a", 7)], [("a", 7)], [], []⟩ 0 []
      encOk (fun _ => "v") "a" "v" (by decide)⟩

/-- A scan run over a directory holding exactly one completed unclaimed
upload, with no observers connected: the marker is written, the encode runs,
and on success both the marker and the source survive. -/
theorem scan_single_complete (f : String) (sz : Nat) (t : Int)
    (enc : String → Except String Unit) (gen : String → String) :
    checkForCompletedUploads ⟨[(f, sz)], [(f, sz)], [], []⟩ t [] enc gen
      = (match enc f with
         | .ok _ => ⟨⟨[(f, sz)], [(f, sz)], [(f, some t)], [gen f]⟩, [f],
             [Ev.writeFlag f, Ev.procStart f (gen f), Ev.procEnd f (gen f)]⟩
         | .error _ => ⟨⟨[(f, sz)], [(f, sz)], [], []⟩, [],
             [Ev.writeFlag f, Ev.procStart f (gen f), Ev.unlinkFlag f]⟩) := by
  cases henc : enc f <;>
    simp [checkForCompletedUploads, prunePhase, scanPhase, scanFile, processVideo,
      readdirNames, jsBroadcast, Store.setFlag, Store.eraseFlag, Store.addHls,
      FName.name, FName.isJson, FName.isFlag, List.lookup, List.insert, henc]

/-- A scan run over a directory holding one completed upload whose claim
marker has gone stale: the marker is pruned and the source re-encoded. -/
theorem scan_single_stale (f : String) (sz : Nat) (t1 t2 : Int)
    (hls0 : List String) (gen : String → String) (hstale : t2 - t1 > ttlMs) :
    checkForCompletedUploads ⟨[(f, sz)], [(f, sz)], [(f, some t1)], hls0⟩ t2 [] encOk gen
      = ⟨⟨[(f, sz)], [(f, sz)], [(f, some t2)], gen f :: hls0⟩, [f],
          [Ev.unlinkFlag f, Ev.writeFlag f, Ev.procStart f (gen f), Ev.procEnd f (gen f)]⟩ := by
  simp [checkForCompletedUploads, prunePhase, pruneEntry, scanPhase, scanFile,
    processVideo, readdirNames, jsBroadcast, Store.setFlag, Store.eraseFlag,
    Store.addHls, FName.name, FName.isJson, FName.isFlag, List.lookup,
    List.insert, encOk, hstale]

/-- C5 amended: on a scanner-path attempt whose encode fully succeeds with no
observers connected, the Catalog is updated (the file joins the run's
processed set) and the run completes — but the claim marker is retained
rather than released, and the original source file is not deleted. -/
theorem c5_amended_success_updates_catalog_keeps_claim_and_source
    (f : String) (sz : Nat) (t : Int) (gen : String → String) :
    (checkForCompletedUploads ⟨[(f, sz)], [(f, sz)], [], []⟩ t [] encOk gen).procd = [f]
    ∧ Ev.procEnd f (gen f)
        ∈ (checkForCompletedUploads ⟨[(f, sz)], [(f, sz)], [], []⟩ t [] encOk gen).trace
    ∧ (checkForCompletedUploads ⟨[(f, sz)], [(f, sz)], [], []⟩ t [] encOk gen).store.flags.lookup f
        = some (some t)
    ∧ (checkForCompletedUploads ⟨[(f, sz)], [(f, sz)], [], []⟩ t [] encOk gen).store.uploads
        = [(f, sz)]
    ∧ ∀ c msg, Ev.sendWs c msg
        ∉ (checkForCompletedUploads ⟨[(f, sz)], [(f, sz)], [], []⟩ t [] encOk gen).trace := by
  have h1 := scan_single_complete f sz t encOk gen
  simp only [encOk] at h1
  rw [h1]
  refine ⟨rfl, by simp, by simp [List.lookup], rfl, ?_⟩
  intro c msg hmm
  simp at hmm

/-- C8 amended: a succeeded source is protected from retry only while its
retained claim marker is younger than the 30-minute TTL; a scan run past the
TTL deletes the marker as stale and starts a fresh transcode for the same
source. -/
theorem c8_amended_succeeded_source_retried_past_ttl (f : String) (sz : Nat)
    (t1 t2 : Int) (g1 g2 : String → String) (hstale : t2 - t1 > ttlMs) :
    Ev.procEnd f (g1 f)
      ∈ (checkForCompletedUploads ⟨[(f, sz)], [(f, sz)], [], []⟩ t1 [] encOk g1).trace
    ∧ (checkForCompletedUploads ⟨[(f, sz)], [(f, sz)], [], []⟩ t1 [] encOk g1).store.flags.lookup f
        = some (some t1)
    ∧ Ev.unlinkFlag f ∈ (checkForCompletedUploads
        (checkForCompletedUploads ⟨[(f, sz)], [(f, sz)], [], []⟩ t1 [] encOk g1).store
        t2 [] encOk g2).trace
    ∧ Ev.procStart f (g2 f) ∈ (checkForCompletedUploads
        (checkForCompletedUploads ⟨[(f, sz)], [(f, sz)], [], []⟩ t1 [] encOk g1).store
        t2 [] encOk g2).trace := by
  have h1 := scan_single_complete f sz t1 encOk g1
  simp only [encOk] at h1
  rw [h1]
  have h2 := scan_single_stale f sz t1 t2 [g1 f] g2 hstale
  rw [h2]
  refine ⟨by simp, by simp [List.lookup], by simp, by simp⟩

/-- C8 amended witness: success at time 0, a rescan one millisecond past the
TTL. -/
theorem c8_amended_succeeded_source_retried_past_ttl_witness :
    ((ttlMs + 1 : Int) - 0 > ttlMs)
    ∧ (Ev.procEnd "a" "v1"
      ∈ (checkForCompletedUploads ⟨[("a", 9)], [("a", 9)], [], []⟩ 0 [] encOk
          (fun _ => "v1")).trace
    ∧ (checkForCompletedUploads ⟨[("a", 9)], [("a", 9)], [], []⟩ 0 [] encOk
        (fun _ => "v1")).store.flags.lookup "a" = some (some 0)
    ∧ Ev.unlinkFlag "a" ∈ (checkForCompletedUploads
        (checkForCompletedUploads ⟨[("a", 9)], [("a", 9)], [], []⟩ 0 [] encOk
          (fun _ => "v1")).store (ttlMs + 1) [] encOk (fun _ => "v2")).trace
    ∧ Ev.procStart "a" "v2" ∈ (checkForCompletedUploads
        (checkForCompletedUploads ⟨[("a", 9)], [("a", 9)], [], []⟩ 0 [] encOk
          (fun _ => "v1")).store (ttlMs + 1) [] encOk (fun _ => "v2")).trace) :=
  ⟨by decide,
    c8_amended_succeeded_source_retried_past_ttl "a" 9 0 (ttlMs + 1)
      (fun _ => "v1") (fun _ => "v2") (by decide)⟩

/-- C6 amended: when variant `k` of the ladder fails with no observers
connected, the push path encodes no later variant (exactly `k + 1` encode
starts appear), leaves the partial output and the original source untouched
(no source unlink), delivers the typed error event to no one (there are no
observers; with any observer connected every broadcast throws instead), and
the handler swallows the error; on the scanner path an encode failure
releases the claim marker for retry while the source file and the hls
directory are left as they were. -/
theorem c6_amended_failure_aborts_releases_claim (k : Nat) (m : String)
    (w h : Nat) (vid : String) (enc : Nat → Except String Unit)
    (hk : k < 3) (hok : ∀ j, j < k → enc j = .ok ()) (herr : enc k = .error m)
    (fenc : String → Except String Unit) (fl : String) (sz : Nat) (t : Int)
    (g : String → String) (m2 : String) (hfenc : fenc fl = .error m2) :
    ((uploadFinish true (.ok ⟨w, h⟩) enc [] vid).1.filter Ev.isEncodeRun).length = k + 1
    ∧ Ev.unlinkSource ∉ (uploadFinish true (.ok ⟨w, h⟩) enc [] vid).1
    ∧ (∀ c msg, Ev.sendWs c msg ∉ (uploadFinish true (.ok ⟨w, h⟩) enc [] vid).1)
    ∧ (uploadFinish true (.ok ⟨w, h⟩) enc [] vid).2 = .ok ()
    ∧ (checkForCompletedUploads ⟨[(fl, sz)], [(fl, sz)], [], []⟩ t [] fenc g).store.flags.lookup fl
        = none
    ∧ Ev.unlinkFlag fl
        ∈ (checkForCompletedUploads ⟨[(fl, sz)], [(fl, sz)], [], []⟩ t [] fenc g).trace
    ∧ (checkForCompletedUploads ⟨[(fl, sz)], [(fl, sz)], [], []⟩ t [] fenc g).store.uploads
        = [(fl, sz)]
    ∧ (checkForCompletedUploads ⟨[(fl, sz)], [(fl, sz)], [], []⟩ t [] fenc g).store.hls
        = [] := by
  have hscan := scan_single_complete fl sz t fenc g
  rw [hfenc] at hscan
  have hpush : uploadFinish true (.ok ⟨w, h⟩) enc [] vid
      = ((Ev.probe :: Ev.writeMaster vid (masterEntries w h)
          :: (match k with
              | 0 => [Ev.encodeRun vid "360p"]
              | 1 => [Ev.encodeRun vid "360p", Ev.encodeEnd vid "360p",
                      Ev.encodeRun vid "480p"]
              | _ => [Ev.encodeRun vid "360p", Ev.encodeEnd vid "360p",
                      Ev.encodeRun vid "480p", Ev.encodeEnd vid "480p",
                      Ev.encodeRun vid "720p"])), .ok ()) := by
    interval_cases k
    · simp [uploadFinish, pushVariants, pushCatch, jsBroadcast, qualities, herr]
    · have e0 : enc 0 = .ok () := hok 0 (by omega)
      simp [uploadFinish, pushVariants, pushCatch, jsBroadcast, qualities, e0, herr]
    · have e0 : enc 0 = .ok () := hok 0 (by omega)
      have e1 : enc 1 = .ok () := hok 1 (by omega)
      simp [uploadFinish, pushVariants, pushCatch, jsBroadcast, qualities, e0, e1, herr]
  rw [hpush, hscan]
  refine ⟨?_, ?_, ?_, rfl, rfl, by simp, rfl, rfl⟩
  · interval_cases k <;> simp [Ev.isEncodeRun]
  · interval_cases k <;> simp
  · intro c msg
    interval_cases k <;> simp

/-- C6 amended witness: variant 2 of 3 fails on the push path; the scanner
path fails its single encode. -/
theorem c6_amended_failure_aborts_releases_claim_witness :
    ((1 : Nat) < 3
      ∧ (∀ j, j < 1 → (fun i => if i = 0 then Except.ok () else Except.error "boom") j
          = Except.ok ())
      ∧ (fun i => if i = 0 then Except.ok () else Except.error "boom") 1
          = Except.error "boom"
      ∧ (fun _ : String => (Except.error "boom" : Except String Unit)) "a"
          = Except.error "boom")
    ∧ (((uploadFinish true (.ok ⟨1920, 1080⟩)
          (fun i => if i = 0 then Except.ok () else Except.error "boom") [] "v").1.filter
          Ev.isEncodeRun).length = 2
    ∧ Ev.unlinkSource ∉ (uploadFinish true (.ok ⟨1920, 1080⟩)
        (fun i => if i = 0 then Except.ok () else Except.error "boom") [] "v").1
    ∧ (∀ c msg, Ev.sendWs c msg ∉ (uploadFinish true (.ok ⟨1920, 1080⟩)
        (fun i => if i = 0 then Except.ok () else Except.error "boom") [] "v").1)
    ∧ (uploadFinish true (.ok ⟨1920, 1080⟩)
        (fun i => if i = 0 then Except.ok () else Except.error "boom") [] "v").2 = .ok ()
    ∧ (checkForCompletedUploads ⟨[("a", 5)], [("a", 5)], [], []⟩ 0 []
        (fun _ => Except.error "boom") (fun _ => "v2")).store.flags.lookup "a" = none
    ∧ Ev.unlinkFlag "a" ∈ (checkForCompletedUploads ⟨[("a", 5)], [("a", 5)], [], []⟩ 0 []
        (fun _ => Except.error "boom") (fun _ => "v2")).trace
    ∧ (checkForCompletedUploads ⟨[("a", 5)], [("a", 5)], [], []⟩ 0 []
        (fun _ => Except.error "boom") (fun _ => "v2")).store.uploads = [("a", 5)]
    ∧ (checkForCompletedUploads ⟨[("a", 5)], [("a", 5)], [], []⟩ 0 []
        (fun _ => Except.error "boom") (fun _ => "v2")).store.hls = []) :=
  ⟨⟨by decide, by decide, by decide, by decide⟩,
    c6_amended_failure_aborts_releases_claim 1 "boom" 1920 1080 "v"
      (fun i => if i = 0 then Except.ok () else Except.error "boom")
      (by decide) (by decide) (by decide)
      (fun _ => Except.error "boom") "a" 5 0 (fun _ => "v2") "boom" (by decide)⟩

/-! ## Claim theorems -/

/-- C1 counterexample: the push-based `upload-finish` handler performs encodes
without ever acquiring the on-disk claim marker — a concrete successful run
contains encode events and not a single marker write, so it is false that both
trigger paths acquire the claim marker before starting any encode. -/
theorem c1_push_encodes_without_claim :
    Ev.encodeRun "v" "360p" ∈
      (uploadFinish true (.ok ⟨1920, 1080⟩) (fun _ => .ok ()) [] "v").1
    ∧ ((uploadFinish true (.ok ⟨1920, 1080⟩) (fun _ => .ok ()) [] "v").1.all
        fun e => !e.isWriteFlag) = true := by decide

/-- C5 counterexample: a scanner-path attempt in which the single configured
encode succeeds ends with the claim marker still on disk and the original
source file still present — the claim is not released and the source is not
deleted, contrary to the claim's conjunction. -/
theorem c5_success_keeps_claim_and_source :
    (Ev.procEnd "a" "v1" ∈
      (checkForCompletedUploads ⟨[("a", 100)], [("a", 100)], [], []⟩ 0 []
        encOk (fun _ => "v1")).trace)
    ∧ (checkForCompletedUploads ⟨[("a", 100)], [("a", 100)], [], []⟩ 0 []
        encOk (fun _ => "v1")).procd = ["a"]
    ∧ (checkForCompletedUploads ⟨[("a", 100)], [("a", 100)], [], []⟩ 0 []
        encOk (fun _ => "v1")).store.flags.lookup "a" = some (some 0)
    ∧ (checkForCompletedUploads ⟨[("a", 100)], [("a", 100)], [], []⟩ 0 []
        encOk (fun _ => "v1")).store.uploads = [("a", 100)] := by decide

/-- C6 counterexample: with one open observer connection and a failing first
variant, the push-path run delivers no websocket event at all — the typed
error broadcast itself dereferences the undefined `WebSocket` and the handler
rejects — so the claimed error event never reaches any observer. -/
theorem c6_error_event_never_delivered :
    ((uploadFinish true (.ok ⟨1920, 1080⟩) (fun _ => .error "boom")
        [⟨"c1", 1⟩] "v").1.all fun e => !e.isSendWs) = true
    ∧ (uploadFinish true (.ok ⟨1920, 1080⟩) (fun _ => .error "boom")
        [⟨"c1", 1⟩] "v").2 = .error (.referenceError "WebSocket") := by decide

/-- C7 counterexample: two requests for the same filename interleaved at the
`await` boundaries both pass the `processedLocalVideos` check before either
records a result, so both invoke the transcoder — not exactly one. -/
theorem c7_interleaved_duplicate_transcode :
    (runTwoRequests ["a"] [] "a" "v1" "v2" [] [true, false, true, false]).transcodes
      = ["a", "a"]
    ∧ (runTwoRequests ["a"] [] "a" "v1" "v2" [] [true, false, true, false]).r1
      = .finished ⟨200, .infoBody ⟨"v1", "a", "/hls/v1/playlist.m3u8"⟩⟩
    ∧ (runTwoRequests ["a"] [] "a" "v1" "v2" [] [true, false, true, false]).r2
      = .finished ⟨200, .infoBody ⟨"v2", "a", "/hls/v2/playlist.m3u8"⟩⟩ := by decide

/-- C8 counterexample: a source that succeeded at time 0 (marker retained as
the success record) is pruned as stale by a scan one millisecond past the
30-minute TTL and immediately re-transcoded — `succeeded` is not terminal. -/
theorem c8_succeeded_source_retried_after_ttl :
    (Ev.procEnd "a" "v1" ∈
      (checkForCompletedUploads ⟨[("a", 100)], [("a", 100)], [], []⟩ 0 []
        encOk (fun _ => "v1")).trace)
    ∧ (Ev.unlinkFlag "a" ∈
      (checkForCompletedUploads
        (checkForCompletedUploads ⟨[("a", 100)], [("a", 100)], [], []⟩ 0 []
          encOk (fun _ => "v1")).store (ttlMs + 1) [] encOk (fun _ => "v2")).trace)
    ∧ (Ev.procStart "a" "v2" ∈
      (checkForCompletedUploads
        (checkForCompletedUploads ⟨[("a", 100)], [("a", 100)], [], []⟩ 0 []
          encOk (fun _ => "v1")).store (ttlMs + 1) [] encOk (fun _ => "v2")).trace) := by
  decide

/-- C9 counterexample: a status query for an identity with no existing package
answers 200 with status `processing` and a null url — not a 404 NotFound. -/
theorem c9_unknown_identity_answers_200 :
    getVideoStatus [] "missing" = ⟨200, .statusBody "missing" "processing" none⟩
    ∧ (getVideoStatus [] "missing").status ≠ 404 := by decide

/-- C4: for every source whose probe succeeds, the `upload-finish` handler
writes the master manifest (second trace event, before any `encodeRun`), the
manifest lists exactly one entry per configured quality — three for the fixed
ladder, independent of source resolution — each entry matching the spec's
formula `targetHeight = min(configuredHeight, sourceHeight)`,
`targetWidth = round(targetHeight * (sourceWidth / sourceHeight))` with the
bandwidth derived from the configured bitrate, and no entry's height exceeds
the source height. -/
theorem c4_master_manifest_full_ladder_before_encode (w h : Nat) (_hh : 0 < h)
    (enc : Nat → Except String Unit) (conns : List Conn) (vid : String) :
    (∃ rest, (uploadFinish true (.ok ⟨w, h⟩) enc conns vid).1
        = Ev.probe :: Ev.writeMaster vid (masterEntries w h) :: rest)
    ∧ (masterEntries w h).length = qualities.length
    ∧ qualities.length = 3
    ∧ masterEntries w h = qualities.map (specLadderEntry w h)
    ∧ ∀ e ∈ masterEntries w h, e.height ≤ h := by
  refine ⟨?_, by simp [masterEntries], by decide, rfl, ?_⟩
  · unfold uploadFinish
    simp only [Bool.true_eq_false, if_false]
    rcases hpv : pushVariants enc conns vid qualities 0 false with ⟨t, e⟩
    cases e with
    | none => exact ⟨t ++ [Ev.unlinkSource], by simp⟩
    | some err =>
      unfold pushCatch
      cases hjb : jsBroadcast conns (.videoError vid err.message) with
      | error re => exact ⟨t, by simp [hjb]⟩
      | ok sends => exact ⟨t ++ sends, by simp [hjb]⟩
  · intro e he
    simp only [masterEntries, List.mem_map] at he
    obtain ⟨q, _, rfl⟩ := he
    exact min_le_right q.height h

/-- C4 witness: a 1920 x 1080 source through the handler. -/
theorem c4_master_manifest_full_ladder_before_encode_witness :
    0 < 1080 ∧
    ((∃ rest, (uploadFinish true (.ok ⟨1920, 1080⟩) (fun _ => .ok ()) [] "v").1
        = Ev.probe :: Ev.writeMaster "v" (masterEntries 1920 1080) :: rest)
    ∧ (masterEntries 1920 1080).length = qualities.length
    ∧ qualities.length = 3
    ∧ masterEntries 1920 1080 = qualities.map (specLadderEntry 1920 1080)
    ∧ ∀ e ∈ masterEntries 1920 1080, e.height ≤ 1080) :=
  ⟨by decide,
    c4_master_manifest_full_ladder_before_encode 1920 1080 (by decide)
      (fun _ => .ok ()) [] "v"⟩

/-- C10: with at least one observer connected, every `wss.clients` broadcast of
the push path throws a ReferenceError (the identifier `WebSocket` is unbound),
the handler's promise rejects with that ReferenceError, the run starts the
first variant's encode but awaits no variant's completion, delivers no
websocket event to anyone, and never deletes the original source file. -/
theorem c10_push_broadcasts_raise_reference_error (w h : Nat)
    (enc : Nat → Except String Unit) (conns : List Conn) (vid : String)
    (hconn : conns ≠ []) :
    (∀ m, jsBroadcast conns m = .error (.referenceError "WebSocket"))
    ∧ (uploadFinish true (.ok ⟨w, h⟩) enc conns vid).2
        = .error (.referenceError "WebSocket")
    ∧ (uploadFinish true (.ok ⟨w, h⟩) enc conns vid).1
        = [Ev.probe, Ev.writeMaster vid (masterEntries w h), Ev.encodeRun vid "360p"]
    ∧ (∀ c m, Ev.sendWs c m ∉ (uploadFinish true (.ok ⟨w, h⟩) enc conns vid).1)
    ∧ (∀ v q, Ev.encodeEnd v q ∉ (uploadFinish true (.ok ⟨w, h⟩) enc conns vid).1)
    ∧ Ev.unlinkSource ∉ (uploadFinish true (.ok ⟨w, h⟩) enc conns vid).1 := by
  obtain ⟨c, rest, rfl⟩ : ∃ c rest, conns = c :: rest := by
    cases conns with
    | nil => exact absurd rfl hconn
    | cons c rest => exact ⟨c, rest, rfl⟩
  have hb : ∀ m, jsBroadcast (c :: rest) m = .error (.referenceError "WebSocket") := by
    intro m; simp [jsBroadcast, moduleWebSocket]
  have hrun : uploadFinish true (.ok ⟨w, h⟩) enc (c :: rest) vid
      = ([Ev.probe, Ev.writeMaster vid (masterEntries w h), Ev.encodeRun vid "360p"],
         .error (.referenceError "WebSocket")) := by
    unfold uploadFinish pushVariants pushCatch
    simp [qualities, hb]
  refine ⟨hb, by rw [hrun], by rw [hrun], ?_, ?_, by rw [hrun]; simp⟩
  · intro cl m; rw [hrun]; simp
  · intro v q; rw [hrun]; simp

/-- C10 witness: one open observer, a 1920 x 1080 source. -/
theorem c10_push_broadcasts_raise_reference_error_witness :
    ([Conn.mk "c1" 1] ≠ ([] : List Conn))
    ∧ ((∀ m, jsBroadcast [Conn.mk "c1" 1] m = .error (.referenceError "WebSocket"))
    ∧ (uploadFinish true (.ok ⟨1920, 1080⟩) (fun _ => .ok ()) [Conn.mk "c1" 1] "v").2
        = .error (.referenceError "WebSocket")
    ∧ (uploadFinish true (.ok ⟨1920, 1080⟩) (fun _ => .ok ()) [Conn.mk "c1" 1] "v").1
        = [Ev.probe, Ev.writeMaster "v" (masterEntries 1920 1080), Ev.encodeRun "v" "360p"]
    ∧ (∀ c m, Ev.sendWs c m ∉
        (uploadFinish true (.ok ⟨1920, 1080⟩) (fun _ => .ok ()) [Conn.mk "c1" 1] "v").1)
    ∧ (∀ v q, Ev.encodeEnd v q ∉
        (uploadFinish true (.ok ⟨1920, 1080⟩) (fun _ => .ok ()) [Conn.mk "c1" 1] "v").1)
    ∧ Ev.unlinkSource ∉
        (uploadFinish true (.ok ⟨1920, 1080⟩) (fun _ => .ok ()) [Conn.mk "c1" 1] "v").1) :=
  ⟨by decide,
    c10_push_broadcasts_raise_reference_error 1920 1080 (fun _ => .ok ())
      [Conn.mk "c1" 1] "v" (by decide)⟩

/-- C9 amended: a process request naming a file absent from the uploads
directory is answered 404 with a structured error body, but a status query
for an identity with no existing package is answered 200 with status
`processing` and a null package url — the 404 half of the claim holds only
for the process endpoint. -/
theorem c9_amended_not_found_behaviour (hls : List String) (vid : String)
    (files : List String) (cache : List (String × VideoInfo)) (f v : String)
    (hvid : vid ∉ hls) (hf : f ∉ files) :
    getVideoStatus hls vid = ⟨200, .statusBody vid "processing" none⟩
    ∧ localPhaseA files cache (some f) v
        = .respond ⟨404, .errBody "File not found"⟩ := by
  constructor
  · unfold getVideoStatus
    simp [hvid]
  · unfold localPhaseA
    simp [hf]

/-- C9 amended witness: empty hls directory and a miss in the uploads
directory. -/
theorem c9_amended_not_found_behaviour_witness :
    ("missing" ∉ ([] : List String) ∧ "nofile" ∉ (["other"] : List String))
    ∧ (getVideoStatus [] "missing" = ⟨200, .statusBody "missing" "processing" none⟩
    ∧ localPhaseA ["other"] [] (some "nofile") "v"
        = .respond ⟨404, .errBody "File not found"⟩) :=
  ⟨⟨by decide, by decide⟩,
    c9_amended_not_found_behaviour [] "missing" ["other"] [] "nofile" "v"
      (by decide) (by decide)⟩

/-- C7 amended: the `processedLocalVideos` cache coalesces a duplicate request
only when the first request has fully completed before the second's cache
check: under the sequential schedule the second request is answered with the
first attempt's record and only one transcode runs, while under an
interleaved schedule both requests pass the cache check and both transcode —
the code records no in-flight `processing` state. -/
theorem c7_amended_coalesce_only_after_completion (files : List String)
    (f v1 v2 : String) (hf : f ∈ files) :
    (runTwoRequests files [] f v1 v2 [] [true, true, false]).transcodes = [f]
    ∧ (runTwoRequests files [] f v1 v2 [] [true, true, false]).r2
        = .finished ⟨200, .infoBody ⟨v1, f, "/hls/" ++ v1 ++ "/playlist.m3u8"⟩⟩
    ∧ (runTwoRequests files [] f v1 v2 [] [true, false, true, false]).transcodes
        = [f, f] := by
  refine ⟨?_, ?_, ?_⟩ <;>
    simp [runTwoRequests, stepLocal, advanceReq, localPhaseA, localPhaseB,
      jsBroadcast, hf, List.lookup]

/-- C7 amended witness: one file, two requests. -/
theorem c7_amended_coalesce_only_after_completion_witness :
    "a" ∈ (["a"] : List String)
    ∧ ((runTwoRequests ["a"] [] "a" "v1" "v2" [] [true, true, false]).transcodes = ["a"]
    ∧ (runTwoRequests ["a"] [] "a" "v1" "v2" [] [true, true, false]).r2
        = .finished ⟨200, .infoBody ⟨"v1", "a", "/hls/" ++ "v1" ++ "/playlist.m3u8"⟩⟩
    ∧ (runTwoRequests ["a"] [] "a" "v1" "v2" [] [true, false, true, false]).transcodes
        = ["a", "a"]) :=
  ⟨by decide,
    c7_amended_coalesce_only_after_completion ["a"] "a" "v1" "v2" (by decide)⟩
